import Mathlib

/-!
Shallow embedding of `scripts/combinesheets.py` (the tile-composition editor).

The program is a pygame application.  Its canvas/tile data lives in pygame
`Surface` objects; the editor mutates them only through `Surface.blit`,
`Surface.fill`, `Surface.get_bounding_rect` and fresh `pygame.Surface(..,
SRCALPHA)` allocations.  We embed a surface as a width/height pair plus a
total pixel function, and the two mutation primitives with pygame's actual
per-pixel semantics:

* `Surface.fill(color, rect)` sets every pixel of the rect (clipped to the
  surface) to the given RGBA color, replacing alpha.
* `Surface.blit(src, (dx,dy), area)` on surfaces created with `SRCALPHA`
  performs pygame's per-pixel-alpha blend.  pygame's blitter (the
  `ALPHA_BLEND` macro in pygame's `surface.h`, used by `alphablit.c`) is,
  per destination pixel, with 8-bit channels and C truncating division:
  if the destination alpha is 0 the source RGBA is copied verbatim,
  otherwise `dC = (sC - dC) * sA / 255 + dC` for each color channel and
  `dA = sA + dA - sA * dA / 255`.  The blit is clipped to the destination
  bounds and the source `area` rect is clipped to the source bounds.

Coordinates are `Int` (Python ints; the code explicitly tests `mx < 0`),
and Python's floor division `//` is `Int.fdiv`.
-/

/-- One RGBA pixel; channels are 8-bit values (0..255) carried as naturals. -/
structure RGBA where
  r : Nat
  g : Nat
  b : Nat
  a : Nat
deriving DecidableEq

/-- The fully transparent pixel `(0, 0, 0, 0)` used by `fill((0,0,0,0), ...)`
and as the initial content of a fresh `pygame.Surface(.., SRCALPHA)`. -/
def RGBA.clear : RGBA := ⟨0, 0, 0, 0⟩

/-- One color channel of pygame's `ALPHA_BLEND` macro (destination alpha
nonzero case): `dC = ((sC - dC) * sA) / 255 + dC` in C `int` arithmetic,
whose division truncates toward zero (`Int.tdiv`). -/
def blendChannel (sc dc sa : Nat) : Nat :=
  ((((sc : Int) - (dc : Int)) * (sa : Int)).tdiv 255 + (dc : Int)).toNat

/-- pygame's per-pixel alpha blend of source pixel `s` over destination
pixel `d` (the `ALPHA_BLEND` macro): copy `s` verbatim when `d.a = 0`,
otherwise blend each channel and set
`a = s.a + d.a - s.a * d.a / 255`. -/
def blendPx (s d : RGBA) : RGBA :=
  if d.a = 0 then s
  else ⟨blendChannel s.r d.r s.a, blendChannel s.g d.g s.a,
        blendChannel s.b d.b s.a, s.a + d.a - s.a * d.a / 255⟩

/-- A pygame surface: a `w × h` grid of RGBA pixels.  The pixel function is
total; only the in-bounds portion `[0,w) × [0,h)` is meaningful. -/
structure Surface where
  w : Nat
  h : Nat
  px : Nat → Nat → RGBA

/-- `pygame.Surface((w, h), pygame.SRCALPHA)`: a fresh fully transparent
surface. -/
def Surface.new (w h : Nat) : Surface :=
  { w := w, h := h, px := fun _ _ => RGBA.clear }

/-- `dst.blit(src, (dx, dy), Rect(ax, ay, aw, ah))`: per-pixel-alpha blit of
the `area` rect of `src` onto `dst` at `(dx, dy)`, clipped to the
destination bounds and with the area rect clipped to the source bounds.
A destination pixel `(x, y)` receives `blendPx` of the corresponding source
pixel when it lies in the blitted region, and is untouched otherwise. -/
def Surface.blit (dst src : Surface) (dx dy ax ay : Int) (aw ah : Nat) : Surface :=
  { dst with
    px := fun x y =>
      if dx ≤ (x : Int) ∧ (x : Int) < dx + (aw : Int) ∧
         dy ≤ (y : Int) ∧ (y : Int) < dy + (ah : Int) ∧
         x < dst.w ∧ y < dst.h ∧
         0 ≤ ax + ((x : Int) - dx) ∧ ax + ((x : Int) - dx) < (src.w : Int) ∧
         0 ≤ ay + ((y : Int) - dy) ∧ ay + ((y : Int) - dy) < (src.h : Int)
      then blendPx (src.px (ax + ((x : Int) - dx)).toNat (ay + ((y : Int) - dy)).toNat)
                   (dst.px x y)
      else dst.px x y }

/-- `surf.fill(color, Rect(rx, ry, rw, rh))`: set every pixel of the rect,
clipped to the surface, to `color` (pygame `fill` replaces RGBA outright). -/
def Surface.fill (s : Surface) (color : RGBA) (rx ry rw rh : Int) : Surface :=
  { s with
    px := fun x y =>
      if rx ≤ (x : Int) ∧ (x : Int) < rx + rw ∧
         ry ≤ (y : Int) ∧ (y : Int) < ry + rh ∧
         x < s.w ∧ y < s.h
      then color
      else s.px x y }

/-- Two surfaces have the same pixel content: same size and equal pixels on
the whole in-bounds region. -/
def Surface.contentEq (s1 s2 : Surface) : Prop :=
  s1.w = s2.w ∧ s1.h = s2.h ∧
  ∀ x y, x < s1.w → y < s1.h → s1.px x y = s2.px x y

/-! ## Module-level constants (`combinesheets.py` lines 39-41) -/

def TILE_SIZE : Int := 16
def PALETTE_COLS : Nat := 8
def PALETTE_THUMB : Nat := 32

/-! ## `TileSheet` (lines 74-92)

`TileSheet.__init__` computes `cols = max(1, width // tile_size)`,
`rows = max(1, height // tile_size)` and then `_slice_tiles` appends, for
`y in range(rows)` and `x in range(cols)` (row-major), a fresh `SRCALPHA`
surface of size `(tile_size, tile_size)` onto which the area rect
`Rect(x*tile_size, y*tile_size, tile_size, tile_size)` of the sheet surface
is blitted.

Construction is fallible: with `tile_size = 0` the line
`self.cols = max(1, self.width // tile_size)` raises `ZeroDivisionError`,
and with `tile_size < 0` the first `pygame.Surface((tile_size, tile_size),
SRCALPHA)` in `_slice_tiles` raises a pygame "Invalid resolution" error
(`rows` and `cols` are clamped to at least 1, so that line always runs).
Either exception propagates to the caller; we embed the constructor as an
`Except` returning which exception was raised.  The spec's error taxonomy
names this `tile_size <= 0` failure class `InvalidTileSize`. -/

inductive SliceError where
  | zeroDivision
  | invalidResolution
deriving DecidableEq

structure TileSheet where
  tile_size : Int
  surface : Surface
  width : Nat
  height : Nat
  cols : Nat
  rows : Nat
  tiles : List Surface

/-- `TileSheet._slice_tiles` (lines 85-92): the row-major list of sliced
tiles.  Each tile is `pygame.Surface((tile_size, tile_size), SRCALPHA)`
blitted with `surface` at `(0, 0)` restricted to the area rect
`Rect(x*tile_size, y*tile_size, tile_size, tile_size)`. -/
def slice_tiles (surface : Surface) (tile_size : Int) (rows cols : Nat) : List Surface :=
  (List.range rows).flatMap fun (y : Nat) =>
    (List.range cols).map fun (x : Nat) =>
      Surface.blit (Surface.new tile_size.toNat tile_size.toNat) surface 0 0
        ((x : Int) * tile_size) ((y : Int) * tile_size) tile_size.toNat tile_size.toNat

/-- `TileSheet.__init__` (lines 75-83); see the section comment for the
`tile_size ≤ 0` exception modelling. -/
def mkTileSheet (img : Surface) (tile_size : Int) : Except SliceError TileSheet :=
  if tile_size = 0 then .error .zeroDivision
  else if tile_size < 0 then .error .invalidResolution
  else
    let cols := max 1 (img.w / tile_size.toNat)
    let rows := max 1 (img.h / tile_size.toNat)
    .ok { tile_size := tile_size, surface := img, width := img.w, height := img.h,
          cols := cols, rows := rows,
          tiles := slice_tiles img tile_size rows cols }

/-! ## `Composer` state (lines 95-117)

The fields of the editor object that the claims touch.  Display-only
fields (window size, screen, clock, font, grid visibility, running flag)
are omitted; they never feed back into canvas/palette/drag state. -/

structure Composer where
  tile_size : Int
  base_sheet : Option TileSheet
  canvas_surface : Option Surface
  palette_sheets : List TileSheet
  palette_index : Nat
  selected_tile : Option Surface
  canvas_selected_tile : Option Surface
  canvas_selected_orig : Option (Int × Int)
  canvas_dragging : Bool
  canvas_drag_mouse : Int × Int
  palette_scroll : Nat

/-- `Composer.open_base` (lines 119-133) with the file dialog and image
decoding stripped: `img` is the already-decoded base image.  On a
`TileSheet` construction failure the `except` branch shows a message box
and returns, leaving every field unchanged.  On success the canvas is a
fresh `SRCALPHA` surface of the sheet's size, onto which the sheet surface
is blitted once in full. -/
def open_base (c : Composer) (img : Surface) : Composer :=
  match mkTileSheet img c.tile_size with
  | .error _ => c
  | .ok ts =>
      { c with
        base_sheet := some ts,
        canvas_surface := some ((Surface.new ts.width ts.height).blit ts.surface
          0 0 0 0 ts.surface.w ts.surface.h) }

/-- `Composer.add_palette_sheet` (lines 135-151) for a single decoded image:
on failure the sheet list is unchanged (the exception is caught and shown);
on success the sheet is appended.  In either case, when the sheet list is
then non-empty, `palette_index` is re-clamped to
`min(palette_index, len(palette_sheets)-1)` — the clamp runs after the
whole loop, also on failure. -/
def add_palette_sheet (c : Composer) (img : Surface) : Composer :=
  let c1 := match mkTileSheet img c.tile_size with
    | .error _ => c
    | .ok ts => { c with palette_sheets := c.palette_sheets ++ [ts] }
  if 0 < c1.palette_sheets.length then
    { c1 with palette_index := min c1.palette_index (c1.palette_sheets.length - 1) }
  else c1

/-- The flattened palette tile sequence: lines 177-179 build
`tiles = []; for sheet in self.palette_sheets: tiles.extend(sheet.tiles)`. -/
def paletteTiles (sheets : List TileSheet) : List Surface :=
  sheets.flatMap TileSheet.tiles

/-- `Composer.select_tile_from_palette_coords` (lines 165-183).  Returns the
updated composer and the function's boolean result.  `palette_scroll` is a
natural (the scroll handlers keep it `≥ 0`), and `px // thumb`,
`py // thumb` are taken after the `px < 0 or py < 0` guard, so the Python
floor divisions coincide with natural division. -/
def select_tile_from_palette_coords (c : Composer) (mx my : Int) : Composer × Bool :=
  match c.canvas_surface with
  | none => (c, false)
  | some s =>
      let px := mx - (s.w : Int) - 10
      let py := my - 10
      if px < 0 ∨ py < 0 then (c, false)
      else
        let col := px.toNat / PALETTE_THUMB
        let row := py.toNat / PALETTE_THUMB + c.palette_scroll
        let idx := row * PALETTE_COLS + col
        let tiles := paletteTiles c.palette_sheets
        if h : idx < tiles.length then
          ({ c with selected_tile := some (tiles.get ⟨idx, h⟩) }, true)
        else (c, false)

/-- `Composer.get_canvas_cell_pos` (lines 185-192): `None` when there is no
canvas or `(mx, my)` is outside `[0, w) × [0, h)`; otherwise the tile-aligned
cell origin `(mx // tile_size * tile_size, my // tile_size * tile_size)`
(Python floor division, `Int.fdiv`). -/
def get_canvas_cell_pos (cs : Option Surface) (tile_size : Int) (mx my : Int) :
    Option (Int × Int) :=
  match cs with
  | none => none
  | some s =>
      if mx < 0 ∨ my < 0 then none
      else if (s.w : Int) ≤ mx ∨ (s.h : Int) ≤ my then none
      else some (mx.fdiv tile_size * tile_size, my.fdiv tile_size * tile_size)

/-- `Composer.get_tile_surface_from_canvas` (lines 194-198): a fresh
`SRCALPHA` tile-sized surface with the canvas area
`Rect(tx, ty, tile_size, tile_size)` blitted at `(0, 0)`. -/
def get_tile_surface_from_canvas (canvas : Surface) (tile_size : Int) (tx ty : Int) :
    Surface :=
  Surface.blit (Surface.new tile_size.toNat tile_size.toNat) canvas
    0 0 tx ty tile_size.toNat tile_size.toNat

/-- `Composer.is_surface_nonempty` (lines 200-203):
`surf.get_bounding_rect()` (default `min_alpha = 1`) has nonzero width and
height iff some pixel has alpha `≥ 1`. -/
def is_surface_nonempty (surf : Surface) : Bool :=
  (List.range surf.h).any fun y =>
    (List.range surf.w).any fun x => (surf.px x y).a ≠ 0

/-- `Composer.place_tile_on_canvas` (lines 233-239): no-op without a canvas
or a selected palette tile; otherwise snap `(mx, my)` to a cell origin,
reject origins outside the canvas, and `blit` the selected tile there. -/
def place_tile_on_canvas (c : Composer) (mx my : Int) : Composer :=
  match c.canvas_surface, c.selected_tile with
  | some k, some sel =>
      let tx := mx.fdiv c.tile_size * c.tile_size
      let ty := my.fdiv c.tile_size * c.tile_size
      if tx < 0 ∨ ty < 0 then c
      else if (k.w : Int) ≤ tx ∨ (k.h : Int) ≤ ty then c
      else { c with canvas_surface := some (k.blit sel tx ty 0 0 sel.w sel.h) }
  | _, _ => c

/-- Line 327 / line 332: `self.canvas_surface.blit(self.canvas_selected_tile,
(tx, ty))` — drop the held tile at a cell origin (helper for `step`). -/
def blit_held (c : Composer) (tx ty : Int) : Composer :=
  match c.canvas_surface, c.canvas_selected_tile with
  | some k, some held =>
      { c with canvas_surface := some (k.blit held tx ty 0 0 held.w held.h) }
  | _, _ => c

/-- The pointer/key events of the main loop that drive canvas state
(lines 281-336).  `keyX` carries the `pygame.mouse.get_pos()` result the
handler reads. -/
inductive PEvent where
  | downLeft (mx my : Int)
  | motion (mx my : Int)
  | upLeft (mx my : Int)
  | keyX (mx my : Int)

/-- One iteration of the event dispatch in `Composer.run` for the modelled
events:

* `K_x` (lines 281-287): resolve the cell under the mouse; if valid, fill it
  with `(0, 0, 0, 0)`.  The handler does NOT test `canvas_dragging`.
* `MOUSEBUTTONDOWN`, button 1 (lines 288-311): clicks with
  `mx > canvas.get_width()` go to the palette; otherwise resolve the cell,
  and on a non-empty cell start a drag (record tile, origin, mouse; clear
  the origin cell), on an empty cell place the selected palette tile.
* `MOUSEMOTION` (lines 316-319): while dragging, record the mouse position.
* `MOUSEBUTTONUP`, button 1 while dragging (lines 320-336): drop the held
  tile at the release cell, or back at the origin when the release position
  resolves to no cell; then clear the drag state.  (The `none` origin arm
  is unreachable while dragging: the origin is recorded whenever
  `canvas_dragging` is set.) -/
def step (c : Composer) (e : PEvent) : Composer :=
  match e with
  | .keyX mx my =>
      match get_canvas_cell_pos c.canvas_surface c.tile_size mx my, c.canvas_surface with
      | some (tx, ty), some k =>
          { c with
            canvas_surface := some (k.fill RGBA.clear tx ty c.tile_size c.tile_size) }
      | _, _ => c
  | .downLeft mx my =>
      match c.canvas_surface with
      | none => c
      | some k =>
          if (k.w : Int) < mx then (select_tile_from_palette_coords c mx my).1
          else
            match get_canvas_cell_pos (some k) c.tile_size mx my with
            | some (tx, ty) =>
                let tile := get_tile_surface_from_canvas k c.tile_size tx ty
                if is_surface_nonempty tile then
                  { c with
                    canvas_selected_tile := some tile,
                    canvas_selected_orig := some (tx, ty),
                    canvas_dragging := true,
                    canvas_drag_mouse := (mx, my),
                    canvas_surface :=
                      some (k.fill RGBA.clear tx ty c.tile_size c.tile_size) }
                else place_tile_on_canvas c mx my
            | none => c
  | .motion mx my =>
      if c.canvas_dragging then { c with canvas_drag_mouse := (mx, my) } else c
  | .upLeft mx my =>
      if c.canvas_dragging then
        let c2 :=
          match get_canvas_cell_pos c.canvas_surface c.tile_size mx my with
          | some (tx, ty) => blit_held c tx ty
          | none =>
              match c.canvas_selected_orig with
              | some (ox, oy) => blit_held c ox oy
              | none => c
        { c2 with
          canvas_selected_tile := none,
          canvas_selected_orig := none,
          canvas_dragging := false }
      else c

/-- Folding the event loop over a list of events. -/
def runEvents (c : Composer) (es : List PEvent) : Composer :=
  es.foldl step c

/-- Number-key sheet switch (lines 274-280): for `K_1..K_9` the index
`idx = event.key - K_1`; when `idx < len(palette_sheets)` the handler sets
`palette_index` and selects `palette_sheets[palette_index].tiles[0]`.
`none` models the `IndexError` Python would raise on `tiles[0]` were the
tile list empty. -/
def handle_number_key (c : Composer) (idx : Nat) : Option Composer :=
  if h : idx < c.palette_sheets.length then
    match (c.palette_sheets.get ⟨idx, h⟩).tiles with
    | [] => none
    | tile :: _ =>
        some { c with palette_index := idx, selected_tile := some tile }
  else some c

/-- `Composer.save_canvas` (lines 370-381) with the file dialog and PNG
encoding stripped: the snapshot handed to `pygame.image.save` is the canvas
surface itself (`none` when no base was opened). -/
def save_canvas (c : Composer) : Option Surface :=
  c.canvas_surface

/-- Pixel accessor on the composer's canvas, for stating theorems. -/
def canvasPx (c : Composer) (x y : Nat) : RGBA :=
  match c.canvas_surface with
  | some k => k.px x y
  | none => RGBA.clear

/-- The composer's canvas exists and has the same pixel content as `s`. -/
def canvasContentEq (c : Composer) (s : Surface) : Prop :=
  match c.canvas_surface with
  | some k => k.contentEq s
  | none => False

/-! ## Concrete instances used by witnesses and counterexamples -/

/-- A composer state as `Composer.__init__` leaves it (no drag in progress,
nothing selected, zero scroll), with the given tile size, canvas, palette
sheets and palette selection. -/
def mkComposer (t : Int) (cs : Option Surface) (sheets : List TileSheet)
    (sel : Option Surface) : Composer :=
  { tile_size := t, base_sheet := none, canvas_surface := cs,
    palette_sheets := sheets, palette_index := 0, selected_tile := sel,
    canvas_selected_tile := none, canvas_selected_orig := none,
    canvas_dragging := false, canvas_drag_mouse := (0, 0), palette_scroll := 0 }

/-- A 4×2 canvas, tile size 2: cell `(0,0)` holds semi-transparent red,
cell `(2,0)` holds opaque blue. -/
def canvasAB : Surface :=
  { w := 4, h := 2,
    px := fun x _ => if x < 2 then ⟨255, 0, 0, 128⟩ else ⟨0, 0, 255, 255⟩ }

def cAB : Composer := mkComposer 2 (some canvasAB) [] none

/-- A 2×2 tile of uniform semi-transparent red. -/
def tileSemi : Surface := { w := 2, h := 2, px := fun _ _ => ⟨255, 0, 0, 128⟩ }

/-- A 2×2 fully transparent canvas. -/
def canvasClear22 : Surface := { w := 2, h := 2, px := fun _ _ => RGBA.clear }

/-- A 2×2 canvas of uniform opaque blue. -/
def canvasBlue22 : Surface := { w := 2, h := 2, px := fun _ _ => ⟨0, 0, 255, 255⟩ }

/-- A 2×2 tile whose pixels are red but fully transparent (alpha 0). -/
def tileClearRed : Surface := { w := 2, h := 2, px := fun _ _ => ⟨255, 0, 0, 0⟩ }

/-- Composer for the placement claims: transparent 2×2 canvas, semi-red
selected tile, tile size 2. -/
def cPlace : Composer := mkComposer 2 (some canvasClear22) [] (some tileSemi)

/-- Composer for the overwrite claim: opaque blue 2×2 canvas, transparent
red selected tile, tile size 2. -/
def cPlace3 : Composer := mkComposer 2 (some canvasBlue22) [] (some tileClearRed)

/-- A composer in the `Dragging` state: opaque blue canvas, a held tile and
its origin cell recorded. -/
def cDrag : Composer :=
  { mkComposer 2 (some canvasBlue22) [] none with
    canvas_selected_tile := some tileSemi,
    canvas_selected_orig := some (0, 0),
    canvas_dragging := true }

/-- A 4×4 image whose pixel at `(x, y)` is `(x, y, 7, 255)` (so every pixel
is distinct and opaque). -/
def imgEx : Surface := { w := 4, h := 4, px := fun x y => ⟨x, y, 7, 255⟩ }

/-- The `TileSheet` that `mkTileSheet imgEx 2` constructs (2×2 grid of 2×2
tiles), spelled out. -/
def tsEx : TileSheet :=
  { tile_size := 2, surface := imgEx, width := imgEx.w, height := imgEx.h,
    cols := max 1 (imgEx.w / (2 : Int).toNat),
    rows := max 1 (imgEx.h / (2 : Int).toNat),
    tiles := slice_tiles imgEx 2 (max 1 (imgEx.h / (2 : Int).toNat))
      (max 1 (imgEx.w / (2 : Int).toNat)) }

/-- Composer for the palette-selection claims: 2×2 canvas, one palette
sheet of four tiles. -/
def cPal : Composer := mkComposer 2 (some canvasClear22) [tsEx] none

/-! ## Surface lemmas -/

@[simp] lemma Surface.new_w (w h : Nat) : (Surface.new w h).w = w := rfl
@[simp] lemma Surface.new_h (w h : Nat) : (Surface.new w h).h = h := rfl
@[simp] lemma Surface.blit_w (dst src : Surface) (dx dy ax ay : Int) (aw ah : Nat) :
    (dst.blit src dx dy ax ay aw ah).w = dst.w := rfl
@[simp] lemma Surface.blit_h (dst src : Surface) (dx dy ax ay : Int) (aw ah : Nat) :
    (dst.blit src dx dy ax ay aw ah).h = dst.h := rfl
@[simp] lemma Surface.fill_w (s : Surface) (c : RGBA) (rx ry rw rh : Int) :
    (s.fill c rx ry rw rh).w = s.w := rfl
@[simp] lemma Surface.fill_h (s : Surface) (c : RGBA) (rx ry rw rh : Int) :
    (s.fill c rx ry rw rh).h = s.h := rfl
@[simp] lemma tile_from_canvas_w (canvas : Surface) (t tx ty : Int) :
    (get_tile_surface_from_canvas canvas t tx ty).w = t.toNat := rfl
@[simp] lemma tile_from_canvas_h (canvas : Surface) (t tx ty : Int) :
    (get_tile_surface_from_canvas canvas t tx ty).h = t.toNat := rfl

lemma Surface.blit_px (dst src : Surface) (dx dy ax ay : Int) (aw ah : Nat) (x y : Nat) :
    (dst.blit src dx dy ax ay aw ah).px x y =
      if dx ≤ (x : Int) ∧ (x : Int) < dx + (aw : Int) ∧
         dy ≤ (y : Int) ∧ (y : Int) < dy + (ah : Int) ∧
         x < dst.w ∧ y < dst.h ∧
         0 ≤ ax + ((x : Int) - dx) ∧ ax + ((x : Int) - dx) < (src.w : Int) ∧
         0 ≤ ay + ((y : Int) - dy) ∧ ay + ((y : Int) - dy) < (src.h : Int)
      then blendPx (src.px (ax + ((x : Int) - dx)).toNat (ay + ((y : Int) - dy)).toNat)
                   (dst.px x y)
      else dst.px x y := rfl

lemma Surface.fill_px (s : Surface) (color : RGBA) (rx ry rw rh : Int) (x y : Nat) :
    (s.fill color rx ry rw rh).px x y =
      if rx ≤ (x : Int) ∧ (x : Int) < rx + rw ∧
         ry ≤ (y : Int) ∧ (y : Int) < ry + rh ∧
         x < s.w ∧ y < s.h
      then color
      else s.px x y := rfl

/-- Blending onto a fully transparent destination pixel copies the source
pixel verbatim (pygame's `dA == 0` special case). -/
lemma blendPx_clear_dst (s d : RGBA) (h : d.a = 0) : blendPx s d = s := by
  simp [blendPx, h]

/-- A fully opaque source pixel replaces the destination pixel. -/
lemma blendPx_opaque_src (s d : RGBA) (h : s.a = 255) : blendPx s d = s := by
  rcases s with ⟨sr, sg, sb, sa⟩
  rcases d with ⟨dr, dg, db, da⟩
  simp only at h
  subst h
  by_cases hda : da = 0
  · simp [blendPx, hda]
  · have hch : ∀ sc dc : Nat, blendChannel sc dc 255 = sc := by
      intro sc dc
      unfold blendChannel
      have h255 : ((255 : Nat) : Int) = 255 := by norm_num
      rw [h255, Int.mul_tdiv_cancel _ (by norm_num)]
      omega
    simp [blendPx, hda, hch, Nat.mul_div_cancel_left da (by norm_num : 0 < 255)]

/-- A fully transparent source pixel leaves a nonempty destination pixel
unchanged. -/
lemma blendPx_clear_src (s d : RGBA) (hs : s.a = 0) (hd : d.a ≠ 0) : blendPx s d = d := by
  rcases s with ⟨sr, sg, sb, sa⟩
  rcases d with ⟨dr, dg, db, da⟩
  simp only at hs
  subst hs
  have hch : ∀ sc dc : Nat, blendChannel sc dc 0 = dc := by
    intro sc dc; unfold blendChannel; simp
  simp [blendPx, hd, hch]

/-- Blending the same source pixel a second time is a no-op when the source
pixel is fully transparent or fully opaque. -/
lemma blendPx_idem (s d : RGBA) (h : s.a = 0 ∨ s.a = 255) :
    blendPx s (blendPx s d) = blendPx s d := by
  rcases h with h | h
  · by_cases hd : d.a = 0
    · rw [blendPx_clear_dst s d hd, blendPx_clear_dst s s h]
    · rw [blendPx_clear_src s d h hd, blendPx_clear_src s d h hd]
  · rw [blendPx_opaque_src s d h, blendPx_opaque_src s s h]

/-! ## Cell-coordinate arithmetic -/

/-- Unpacking a successful `get_canvas_cell_pos`. -/
lemma cell_pos_some {s : Surface} {t mx my tx ty : Int}
    (h : get_canvas_cell_pos (some s) t mx my = some (tx, ty)) :
    0 ≤ mx ∧ 0 ≤ my ∧ mx < (s.w : Int) ∧ my < (s.h : Int) ∧
    tx = mx.fdiv t * t ∧ ty = my.fdiv t * t := by
  simp only [get_canvas_cell_pos] at h
  by_cases h1 : mx < 0 ∨ my < 0
  · rw [if_pos h1] at h; exact absurd h (by simp)
  · rw [if_neg h1] at h
    by_cases h2 : (s.w : Int) ≤ mx ∨ (s.h : Int) ≤ my
    · rw [if_pos h2] at h; exact absurd h (by simp)
    · rw [if_neg h2] at h
      rw [Option.some.injEq, Prod.mk.injEq] at h
      push_neg at h1 h2
      exact ⟨h1.1, h1.2, h2.1, h2.2, h.1.symm, h.2.symm⟩

/-- The snapped origin `mx // t * t` is between `0` and `mx`, and `mx` lies
within one tile of it. -/
lemma fdiv_mul_bounds {mx t : Int} (hmx : 0 ≤ mx) (ht : 0 < t) :
    0 ≤ mx.fdiv t * t ∧ mx.fdiv t * t ≤ mx ∧ mx < mx.fdiv t * t + t := by
  rw [Int.fdiv_eq_ediv _ (le_of_lt ht)]
  refine ⟨mul_nonneg (Int.ediv_nonneg hmx (le_of_lt ht)) (le_of_lt ht),
    Int.ediv_mul_le mx (ne_of_gt ht), ?_⟩
  have h2 := Int.lt_ediv_add_one_mul_self mx ht
  have h3 : (mx / t + 1) * t = mx / t * t + t := by ring
  linarith

/-- `get_canvas_cell_pos` only reads the canvas dimensions, never pixels. -/
lemma cell_pos_congr {s1 s2 : Surface} (hw : s1.w = s2.w) (hh : s1.h = s2.h)
    (t mx my : Int) :
    get_canvas_cell_pos (some s1) t mx my = get_canvas_cell_pos (some s2) t mx my := by
  simp only [get_canvas_cell_pos, hw, hh]

/-- Clearing a cell and blitting back the tile previously read from that
cell restores the canvas content exactly: the tile read copies every cell
pixel verbatim (fresh tile surface is fully transparent, so pygame's blend
copies), clearing makes the cell fully transparent, and the drop then
copies the saved pixels back for the same reason. -/
lemma restore_cell (K : Surface) (t tx ty : Int) (htx : 0 ≤ tx) (hty : 0 ≤ ty) :
    ((K.fill RGBA.clear tx ty t t).blit (get_tile_surface_from_canvas K t tx ty)
      tx ty 0 0 t.toNat t.toNat).contentEq K := by
  refine ⟨rfl, rfl, fun x y hx hy => ?_⟩
  simp only [Surface.blit_w, Surface.blit_h, Surface.fill_w, Surface.fill_h] at hx hy
  rw [Surface.blit_px]
  by_cases hin : tx ≤ (x : Int) ∧ (x : Int) < tx + (t.toNat : Int) ∧
      ty ≤ (y : Int) ∧ (y : Int) < ty + (t.toNat : Int)
  · rw [if_pos (by simp only [tile_from_canvas_w, tile_from_canvas_h,
      Surface.fill_w, Surface.fill_h]; omega)]
    rw [Surface.fill_px, if_pos (by omega)]
    rw [blendPx_clear_dst _ _ rfl]
    rw [get_tile_surface_from_canvas, Surface.blit_px]
    rw [if_pos (by simp only [Surface.new_w, Surface.new_h]; omega)]
    rw [blendPx_clear_dst _ _ rfl]
    have hxx : (tx + ((((0 : Int) + ((x : Int) - tx)).toNat : Int) - 0)).toNat = x := by
      omega
    have hyy : (ty + ((((0 : Int) + ((y : Int) - ty)).toNat : Int) - 0)).toNat = y := by
      omega
    rw [hxx, hyy]
  · rw [if_neg (by simp only [tile_from_canvas_w, tile_from_canvas_h,
      Surface.fill_w, Surface.fill_h]; omega)]
    rw [Surface.fill_px, if_neg (by omega)]

/-! ## Event-step characterizations -/

/-- Pointer-down on a resolvable, non-empty canvas cell starts a drag:
records the read tile, origin and mouse position, and clears the origin
cell. -/
lemma step_down_drag {c : Composer} {K : Surface} {mx my tx ty : Int}
    (hc : c.canvas_surface = some K)
    (hcell : get_canvas_cell_pos (some K) c.tile_size mx my = some (tx, ty))
    (hne : is_surface_nonempty (get_tile_surface_from_canvas K c.tile_size tx ty) = true) :
    step c (.downLeft mx my) =
      { c with
        canvas_selected_tile := some (get_tile_surface_from_canvas K c.tile_size tx ty),
        canvas_selected_orig := some (tx, ty),
        canvas_dragging := true,
        canvas_drag_mouse := (mx, my),
        canvas_surface := some (K.fill RGBA.clear tx ty c.tile_size c.tile_size) } := by
  obtain ⟨hmx0, hmy0, hmxw, hmyh, htx, hty⟩ := cell_pos_some hcell
  simp only [step, hc]
  rw [if_neg (by omega : ¬ ((K.w : Int) < mx))]
  simp only [hcell, hne, if_true]

/-- A motion event never changes the canvas, the drag flag, the held tile,
the origin, or the tile size. -/
lemma step_motion_fields (c : Composer) (mx my : Int) :
    (step c (.motion mx my)).canvas_surface = c.canvas_surface ∧
    (step c (.motion mx my)).canvas_dragging = c.canvas_dragging ∧
    (step c (.motion mx my)).canvas_selected_tile = c.canvas_selected_tile ∧
    (step c (.motion mx my)).canvas_selected_orig = c.canvas_selected_orig ∧
    (step c (.motion mx my)).tile_size = c.tile_size := by
  simp only [step]
  split_ifs <;> exact ⟨rfl, rfl, rfl, rfl, rfl⟩

/-- Any run of motion events preserves canvas, drag flag, held tile, origin
and tile size. -/
lemma runEvents_motions (ms : List (Int × Int)) (c : Composer) :
    (runEvents c (ms.map fun p => PEvent.motion p.1 p.2)).canvas_surface = c.canvas_surface ∧
    (runEvents c (ms.map fun p => PEvent.motion p.1 p.2)).canvas_dragging = c.canvas_dragging ∧
    (runEvents c (ms.map fun p => PEvent.motion p.1 p.2)).canvas_selected_tile
      = c.canvas_selected_tile ∧
    (runEvents c (ms.map fun p => PEvent.motion p.1 p.2)).canvas_selected_orig
      = c.canvas_selected_orig ∧
    (runEvents c (ms.map fun p => PEvent.motion p.1 p.2)).tile_size = c.tile_size := by
  induction ms generalizing c with
  | nil => exact ⟨rfl, rfl, rfl, rfl, rfl⟩
  | cons p ps ih =>
      simp only [List.map_cons, runEvents, List.foldl_cons] at *
      have h1 := step_motion_fields c p.1 p.2
      have h2 := ih (step c (.motion p.1 p.2))
      exact ⟨h2.1.trans h1.1, h2.2.1.trans h1.2.1, h2.2.2.1.trans h1.2.2.1,
        h2.2.2.2.1.trans h1.2.2.2.1, h2.2.2.2.2.trans h1.2.2.2.2⟩

/-- Pointer-up while dragging: the held tile is blitted at the release cell
when one resolves, and back at the recorded origin otherwise. -/
lemma step_up_canvas {c : Composer} {K T : Surface} {ox oy : Int} (ux uy : Int)
    (hdrag : c.canvas_dragging = true)
    (hc : c.canvas_surface = some K)
    (hheld : c.canvas_selected_tile = some T)
    (horig : c.canvas_selected_orig = some (ox, oy)) :
    (step c (.upLeft ux uy)).canvas_surface =
      (match get_canvas_cell_pos (some K) c.tile_size ux uy with
       | some (tx, ty) => some (K.blit T tx ty 0 0 T.w T.h)
       | none => some (K.blit T ox oy 0 0 T.w T.h)) := by
  simp only [step, hdrag, if_true, hc, horig]
  cases hcase : get_canvas_cell_pos (some K) c.tile_size ux uy with
  | none => simp only [blit_held, hc, hheld]
  | some p =>
      cases p with
      | mk tx ty => simp only [blit_held, hc, hheld]

/-- The composer's canvas content is `s` when its canvas is a surface with
content `s`. -/
lemma canvasContentEq_of_eq {c : Composer} {k s : Surface}
    (h : c.canvas_surface = some k) (h2 : k.contentEq s) : canvasContentEq c s := by
  unfold canvasContentEq
  rw [h]
  exact h2

/-- Pointer-up while dragging at a position that resolves to no cell blits
the held tile back at the recorded origin. -/
lemma step_up_outside {c : Composer} {K T : Surface} {ox oy : Int} (ux uy : Int)
    (hdrag : c.canvas_dragging = true)
    (hc : c.canvas_surface = some K)
    (hheld : c.canvas_selected_tile = some T)
    (horig : c.canvas_selected_orig = some (ox, oy))
    (hout : get_canvas_cell_pos (some K) c.tile_size ux uy = none) :
    (step c (.upLeft ux uy)).canvas_surface = some (K.blit T ox oy 0 0 T.w T.h) := by
  rw [step_up_canvas ux uy hdrag hc hheld horig, hout]

/-- Pointer-up while dragging at a position that resolves to a cell blits
the held tile at that cell. -/
lemma step_up_at_cell {c : Composer} {K T : Surface} {ox oy bx bz : Int} (ux uy : Int)
    (hdrag : c.canvas_dragging = true)
    (hc : c.canvas_surface = some K)
    (hheld : c.canvas_selected_tile = some T)
    (horig : c.canvas_selected_orig = some (ox, oy))
    (hcell : get_canvas_cell_pos (some K) c.tile_size ux uy = some (bx, bz)) :
    (step c (.upLeft ux uy)).canvas_surface = some (K.blit T bx bz 0 0 T.w T.h) := by
  rw [step_up_canvas ux uy hdrag hc hheld horig, hcell]

/-- C1: for every canvas and every drag sequence — pointer-down on a
non-empty canvas cell, any number of pointer-moves, pointer-up at a
position outside the canvas bounds — the canvas pixel content after the
sequence equals the content before it (full revert; the lifted tile is
never lost). -/
theorem drag_revert_full_restore (c : Composer) (K : Surface)
    (mx my tx ty ux uy : Int) (ms : List (Int × Int))
    (hc : c.canvas_surface = some K)
    (ht : 0 < c.tile_size)
    (hcell : get_canvas_cell_pos (some K) c.tile_size mx my = some (tx, ty))
    (hne : is_surface_nonempty (get_tile_surface_from_canvas K c.tile_size tx ty) = true)
    (hout : get_canvas_cell_pos (some K) c.tile_size ux uy = none) :
    canvasContentEq
      (runEvents c (PEvent.downLeft mx my ::
        ((ms.map fun p => PEvent.motion p.1 p.2) ++ [PEvent.upLeft ux uy]))) K := by
  obtain ⟨hmx0, hmy0, hmxw, hmyh, htx, hty⟩ := cell_pos_some hcell
  have htx0 : 0 ≤ tx := htx ▸ (fdiv_mul_bounds hmx0 ht).1
  have hty0 : 0 ≤ ty := hty ▸ (fdiv_mul_bounds hmy0 ht).1
  rw [runEvents, List.foldl_cons, List.foldl_append, List.foldl_cons, List.foldl_nil]
  have hdown := step_down_drag hc hcell hne
  have hcd1 : (step c (.downLeft mx my)).canvas_surface
      = some (K.fill RGBA.clear tx ty c.tile_size c.tile_size) := by rw [hdown]
  have hcd2 : (step c (.downLeft mx my)).canvas_dragging = true := by rw [hdown]
  have hcd3 : (step c (.downLeft mx my)).canvas_selected_tile
      = some (get_tile_surface_from_canvas K c.tile_size tx ty) := by rw [hdown]
  have hcd4 : (step c (.downLeft mx my)).canvas_selected_orig = some (tx, ty) := by
    rw [hdown]
  have hcd5 : (step c (.downLeft mx my)).tile_size = c.tile_size := by rw [hdown]
  have hmot := runEvents_motions ms (step c (.downLeft mx my))
  simp only [runEvents] at hmot
  have hout2 : get_canvas_cell_pos
      (some (K.fill RGBA.clear tx ty c.tile_size c.tile_size))
      (List.foldl step (step c (.downLeft mx my))
        (ms.map fun p => PEvent.motion p.1 p.2)).tile_size ux uy = none := by
    rw [hmot.2.2.2.2, hcd5]
    simpa only [get_canvas_cell_pos, Surface.fill_w, Surface.fill_h] using hout
  have hfin := step_up_outside ux uy (hmot.2.1.trans hcd2) (hmot.1.trans hcd1)
    (hmot.2.2.1.trans hcd3) (hmot.2.2.2.1.trans hcd4) hout2
  refine canvasContentEq_of_eq hfin ?_
  exact restore_cell K c.tile_size tx ty htx0 hty0

/-- Witness for C1: a concrete drag on `cAB` lifted from cell `(0,0)` and
released outside the 4×2 canvas restores the canvas content. -/
theorem drag_revert_full_restore_witness :
    canvasContentEq
      (runEvents cAB (PEvent.downLeft 0 0 ::
        (([((7 : Int), (7 : Int))].map fun p => PEvent.motion p.1 p.2) ++
          [PEvent.upLeft 9 9]))) canvasAB :=
  drag_revert_full_restore cAB canvasAB 0 0 0 0 9 9 [(7, 7)] rfl (by decide)
    (by decide) (by decide) (by decide)

/-- Two distinct multiples of a positive `t` are at least `t` apart. -/
lemma mul_origin_sep {q1 q2 t : Int} (ht : 0 < t) (h : q1 * t ≠ q2 * t) :
    q1 * t + t ≤ q2 * t ∨ q2 * t + t ≤ q1 * t := by
  rcases lt_trichotomy q1 q2 with hlt | heq | hgt
  · left
    have h1 : (q1 + 1) * t ≤ q2 * t :=
      mul_le_mul_of_nonneg_right (by omega) (le_of_lt ht)
    have h2 : (q1 + 1) * t = q1 * t + t := by ring
    linarith
  · exact absurd (by rw [heq]) h
  · right
    have h1 : (q2 + 1) * t ≤ q1 * t :=
      mul_le_mul_of_nonneg_right (by omega) (le_of_lt ht)
    have h2 : (q2 + 1) * t = q2 * t + t := by ring
    linarith

/-- C2 (amended): pointer-down on non-empty cell A then pointer-up over a
valid cell B: for A = B the canvas content is restored unchanged; for
A ≠ B, cell A is left fully transparent and each pixel of cell B holds the
lifted tile alpha-blended (pygame per-pixel blit) over B's prior pixel —
which equals exactly the lifted tile's pixel wherever that tile pixel is
fully opaque or B's prior pixel was fully transparent. -/
theorem drag_commit_blend (c : Composer) (K : Surface)
    (mx my ax ay ux uy cx cy : Int)
    (hc : c.canvas_surface = some K)
    (ht : 0 < c.tile_size)
    (hcellA : get_canvas_cell_pos (some K) c.tile_size mx my = some (ax, ay))
    (hne : is_surface_nonempty (get_tile_surface_from_canvas K c.tile_size ax ay) = true)
    (hcellB : get_canvas_cell_pos (some K) c.tile_size ux uy = some (cx, cy)) :
    ((ax, ay) = (cx, cy) →
      canvasContentEq (runEvents c [PEvent.downLeft mx my, PEvent.upLeft ux uy]) K) ∧
    ((ax, ay) ≠ (cx, cy) →
      ∀ x y : Nat, x < K.w → y < K.h →
        ((ax ≤ (x : Int) ∧ (x : Int) < ax + c.tile_size ∧
          ay ≤ (y : Int) ∧ (y : Int) < ay + c.tile_size) →
            canvasPx (runEvents c [PEvent.downLeft mx my, PEvent.upLeft ux uy]) x y
              = RGBA.clear) ∧
        ((cx ≤ (x : Int) ∧ (x : Int) < cx + c.tile_size ∧
          cy ≤ (y : Int) ∧ (y : Int) < cy + c.tile_size) →
            canvasPx (runEvents c [PEvent.downLeft mx my, PEvent.upLeft ux uy]) x y
              = blendPx
                  ((get_tile_surface_from_canvas K c.tile_size ax ay).px
                    ((x : Int) - cx).toNat ((y : Int) - cy).toNat)
                  (K.px x y) ∧
            (((get_tile_surface_from_canvas K c.tile_size ax ay).px
                  ((x : Int) - cx).toNat ((y : Int) - cy).toNat).a = 255 ∨
                (K.px x y).a = 0 →
              canvasPx (runEvents c [PEvent.downLeft mx my, PEvent.upLeft ux uy]) x y
                = (get_tile_surface_from_canvas K c.tile_size ax ay).px
                    ((x : Int) - cx).toNat ((y : Int) - cy).toNat))) := by
  obtain ⟨hmx0, hmy0, hmxw, hmyh, haxd, hayd⟩ := cell_pos_some hcellA
  obtain ⟨hux0, huy0, huxw, huyh, hcxd, hcyd⟩ := cell_pos_some hcellB
  have hax0 : 0 ≤ ax := haxd ▸ (fdiv_mul_bounds hmx0 ht).1
  have hay0 : 0 ≤ ay := hayd ▸ (fdiv_mul_bounds hmy0 ht).1
  have hcx0 : 0 ≤ cx := hcxd ▸ (fdiv_mul_bounds hux0 ht).1
  have hcy0 : 0 ≤ cy := hcyd ▸ (fdiv_mul_bounds huy0 ht).1
  have hdown := step_down_drag hc hcellA hne
  have hcd1 : (step c (.downLeft mx my)).canvas_surface
      = some (K.fill RGBA.clear ax ay c.tile_size c.tile_size) := by rw [hdown]
  have hcd2 : (step c (.downLeft mx my)).canvas_dragging = true := by rw [hdown]
  have hcd3 : (step c (.downLeft mx my)).canvas_selected_tile
      = some (get_tile_surface_from_canvas K c.tile_size ax ay) := by rw [hdown]
  have hcd4 : (step c (.downLeft mx my)).canvas_selected_orig = some (ax, ay) := by
    rw [hdown]
  have hcd5 : (step c (.downLeft mx my)).tile_size = c.tile_size := by rw [hdown]
  have hcellB2 : get_canvas_cell_pos
      (some (K.fill RGBA.clear ax ay c.tile_size c.tile_size))
      (step c (.downLeft mx my)).tile_size ux uy = some (cx, cy) := by
    rw [hcd5]
    simpa only [get_canvas_cell_pos, Surface.fill_w, Surface.fill_h] using hcellB
  have hfin : (runEvents c [PEvent.downLeft mx my, PEvent.upLeft ux uy]).canvas_surface
      = some ((K.fill RGBA.clear ax ay c.tile_size c.tile_size).blit
          (get_tile_surface_from_canvas K c.tile_size ax ay) cx cy 0 0
          (get_tile_surface_from_canvas K c.tile_size ax ay).w
          (get_tile_surface_from_canvas K c.tile_size ax ay).h) := by
    rw [runEvents, List.foldl_cons, List.foldl_cons, List.foldl_nil]
    exact step_up_at_cell ux uy hcd2 hcd1 hcd3 hcd4 hcellB2
  constructor
  · intro heq
    rw [Prod.mk.injEq] at heq
    obtain ⟨h1, h2⟩ := heq
    refine canvasContentEq_of_eq hfin ?_
    rw [← h1, ← h2]
    exact restore_cell K c.tile_size ax ay hax0 hay0
  · intro hneq x y hx hy
    have hsep : (ax + c.tile_size ≤ cx ∨ cx + c.tile_size ≤ ax) ∨
        (ax = cx ∧ (ay + c.tile_size ≤ cy ∨ cy + c.tile_size ≤ ay)) := by
      by_cases haxcx : ax = cx
      · right
        refine ⟨haxcx, ?_⟩
        have haycy : ay ≠ cy := by
          intro h
          exact hneq (by rw [haxcx, h])
        rw [hayd, hcyd] at haycy ⊢
        exact mul_origin_sep ht haycy
      · left
        rw [haxd, hcxd] at haxcx ⊢
        exact mul_origin_sep ht haxcx
    constructor
    · intro hinA
      simp only [canvasPx, hfin]
      rw [Surface.blit_px]
      split_ifs with hcond
      · exfalso
        simp only [tile_from_canvas_w, tile_from_canvas_h, Surface.fill_w,
          Surface.fill_h] at hcond
        omega
      · rw [Surface.fill_px]
        split_ifs with hcond2
        · rfl
        · exfalso; omega
    · intro hinB
      have hpx : canvasPx (runEvents c [PEvent.downLeft mx my, PEvent.upLeft ux uy]) x y
          = blendPx
              ((get_tile_surface_from_canvas K c.tile_size ax ay).px
                ((x : Int) - cx).toNat ((y : Int) - cy).toNat)
              (K.px x y) := by
        simp only [canvasPx, hfin]
        rw [Surface.blit_px]
        split_ifs with hcond
        · rw [Surface.fill_px]
          split_ifs with hcond2
          · exfalso; omega
          · rw [zero_add, zero_add]
        · exfalso
          simp only [tile_from_canvas_w, tile_from_canvas_h, Surface.fill_w,
            Surface.fill_h] at hcond
          omega
      refine ⟨hpx, fun hopq => ?_⟩
      rcases hopq with hopq | hopq
      · rw [hpx]; exact blendPx_opaque_src _ _ hopq
      · rw [hpx]; exact blendPx_clear_dst _ _ hopq

/-- Counterexample to C2 as stated: dragging the semi-transparent red tile
from cell `(0,0)` of `cAB` and dropping it on the non-empty (opaque blue)
cell `(2,0)` does not leave that cell holding exactly the lifted tile:
pygame's per-pixel blit blends, producing `(128,0,127,255)` rather than the
lifted `(255,0,0,128)`. -/
theorem drag_commit_exact_copy_fails :
    get_canvas_cell_pos (some canvasAB) cAB.tile_size 0 0 = some (0, 0) ∧
    is_surface_nonempty (get_tile_surface_from_canvas canvasAB cAB.tile_size 0 0)
      = true ∧
    get_canvas_cell_pos (some canvasAB) cAB.tile_size 2 0 = some (2, 0) ∧
    (get_tile_surface_from_canvas canvasAB cAB.tile_size 0 0).px 0 0
      = ⟨255, 0, 0, 128⟩ ∧
    canvasPx (runEvents cAB [PEvent.downLeft 0 0, PEvent.upLeft 2 0]) 2 0
      ≠ (get_tile_surface_from_canvas canvasAB cAB.tile_size 0 0).px 0 0 := by
  decide

/-- Witness for the amended C2 at a concrete input: the dropped pixel at
`(2,0)` is the pygame blend of the lifted tile pixel over the prior
canvas pixel. -/
theorem drag_commit_blend_witness :
    canvasPx (runEvents cAB [PEvent.downLeft 0 0, PEvent.upLeft 2 0]) 2 0
      = blendPx
          ((get_tile_surface_from_canvas canvasAB cAB.tile_size 0 0).px
            (((2 : Nat) : Int) - 2).toNat (((0 : Nat) : Int) - 0).toNat)
          (canvasAB.px 2 0) := by
  have h := drag_commit_blend cAB canvasAB 0 0 0 0 2 0 2 0 rfl (by decide)
    (by decide) (by decide) (by decide)
  exact ((h.2 (by decide) 2 0 (by decide) (by decide)).2 (by decide)).1

/-- `place_tile_on_canvas` with a canvas, a selected tile and an in-bounds
click: the canvas becomes the pygame blit of the tile at the snapped cell
origin, every other field unchanged. -/
lemma place_tile_eq (c : Composer) (K S : Surface) (mx my : Int)
    (hc : c.canvas_surface = some K)
    (hs : c.selected_tile = some S)
    (ht : 0 < c.tile_size)
    (hmx : 0 ≤ mx) (hmy : 0 ≤ my)
    (hmxw : mx < (K.w : Int)) (hmyh : my < (K.h : Int)) :
    place_tile_on_canvas c mx my =
      { c with canvas_surface := some (K.blit S
          (mx.fdiv c.tile_size * c.tile_size) (my.fdiv c.tile_size * c.tile_size)
          0 0 S.w S.h) } := by
  have hb1 := fdiv_mul_bounds hmx ht
  have hb2 := fdiv_mul_bounds hmy ht
  simp only [place_tile_on_canvas, hc, hs]
  rw [if_neg (by omega), if_neg (by omega)]

/-- C3 (amended): writing a tile into a cell alpha-blends the tile's pixels
over the cell's prior content (pygame per-pixel blit) rather than replacing
them outright; a cell pixel is replaced exactly by a tile pixel wherever
that tile pixel is fully opaque or the prior pixel fully transparent. -/
theorem place_tile_blends (c : Composer) (K S : Surface) (mx my : Int)
    (hc : c.canvas_surface = some K)
    (hs : c.selected_tile = some S)
    (ht : 0 < c.tile_size)
    (hmx : 0 ≤ mx) (hmy : 0 ≤ my)
    (hmxw : mx < (K.w : Int)) (hmyh : my < (K.h : Int)) :
    (place_tile_on_canvas c mx my).canvas_surface
      = some (K.blit S
          (mx.fdiv c.tile_size * c.tile_size) (my.fdiv c.tile_size * c.tile_size)
          0 0 S.w S.h) ∧
    ∀ x y : Nat, x < K.w → y < K.h →
      (mx.fdiv c.tile_size * c.tile_size ≤ (x : Int) ∧
       (x : Int) < mx.fdiv c.tile_size * c.tile_size + (S.w : Int) ∧
       my.fdiv c.tile_size * c.tile_size ≤ (y : Int) ∧
       (y : Int) < my.fdiv c.tile_size * c.tile_size + (S.h : Int)) →
        canvasPx (place_tile_on_canvas c mx my) x y
          = blendPx
              (S.px ((x : Int) - mx.fdiv c.tile_size * c.tile_size).toNat
                    ((y : Int) - my.fdiv c.tile_size * c.tile_size).toNat)
              (K.px x y) ∧
        ((S.px ((x : Int) - mx.fdiv c.tile_size * c.tile_size).toNat
               ((y : Int) - my.fdiv c.tile_size * c.tile_size).toNat).a = 255 ∨
            (K.px x y).a = 0 →
          canvasPx (place_tile_on_canvas c mx my) x y
            = S.px ((x : Int) - mx.fdiv c.tile_size * c.tile_size).toNat
                   ((y : Int) - my.fdiv c.tile_size * c.tile_size).toNat) := by
  have heq := place_tile_eq c K S mx my hc hs ht hmx hmy hmxw hmyh
  refine ⟨by rw [heq], fun x y hx hy hreg => ?_⟩
  have hpx : canvasPx (place_tile_on_canvas c mx my) x y
      = blendPx
          (S.px ((x : Int) - mx.fdiv c.tile_size * c.tile_size).toNat
                ((y : Int) - my.fdiv c.tile_size * c.tile_size).toNat)
          (K.px x y) := by
    rw [heq]
    simp only [canvasPx]
    rw [Surface.blit_px]
    split_ifs with hcond
    · rw [zero_add, zero_add]
    · exfalso; omega
  refine ⟨hpx, fun hopq => ?_⟩
  rcases hopq with hopq | hopq
  · rw [hpx]; exact blendPx_opaque_src _ _ hopq
  · rw [hpx]; exact blendPx_clear_dst _ _ hopq

/-- Counterexample to C3 as stated: placing a fully transparent red tile
over the opaque blue cell of `cPlace3` leaves the cell's prior pixels in
place (pygame blend with source alpha 0), instead of replacing them with
the tile's pixels and alpha. -/
theorem place_tile_overwrite_fails :
    tileClearRed.px 0 0 = ⟨255, 0, 0, 0⟩ ∧
    canvasPx (place_tile_on_canvas cPlace3 0 0) 0 0 ≠ tileClearRed.px 0 0 ∧
    canvasPx (place_tile_on_canvas cPlace3 0 0) 0 0 = canvasBlue22.px 0 0 := by
  decide

/-- Witness for the amended C3: placing the semi-transparent tile of
`cPlace` at `(0,0)` gives the pygame blend at pixel `(0,0)`. -/
theorem place_tile_blends_witness :
    canvasPx (place_tile_on_canvas cPlace 0 0) 0 0
      = blendPx (tileSemi.px 0 0) (canvasClear22.px 0 0) :=
  ((place_tile_blends cPlace canvasClear22 tileSemi 0 0 rfl rfl (by decide)
      (by decide) (by decide) (by decide) (by decide)).2
    0 0 (by decide) (by decide) (by decide)).1

/-- C4 (amended): placing the same tile twice in succession at the same
cell yields the same canvas content as placing it once, provided every
pixel of the tile is fully transparent or fully opaque (for intermediate
alpha, pygame re-blends and the content differs). -/
theorem place_twice_idem (c : Composer) (K S : Surface) (mx my : Int)
    (hc : c.canvas_surface = some K)
    (hs : c.selected_tile = some S)
    (ht : 0 < c.tile_size)
    (hmx : 0 ≤ mx) (hmy : 0 ≤ my)
    (hmxw : mx < (K.w : Int)) (hmyh : my < (K.h : Int))
    (hbin : ∀ u v : Nat, u < S.w → v < S.h → (S.px u v).a = 0 ∨ (S.px u v).a = 255) :
    (place_tile_on_canvas (place_tile_on_canvas c mx my) mx my).canvas_surface
      = some ((K.blit S
          (mx.fdiv c.tile_size * c.tile_size) (my.fdiv c.tile_size * c.tile_size)
          0 0 S.w S.h).blit S
          (mx.fdiv c.tile_size * c.tile_size) (my.fdiv c.tile_size * c.tile_size)
          0 0 S.w S.h) ∧
    ((K.blit S
        (mx.fdiv c.tile_size * c.tile_size) (my.fdiv c.tile_size * c.tile_size)
        0 0 S.w S.h).blit S
        (mx.fdiv c.tile_size * c.tile_size) (my.fdiv c.tile_size * c.tile_size)
        0 0 S.w S.h).contentEq
      (K.blit S
        (mx.fdiv c.tile_size * c.tile_size) (my.fdiv c.tile_size * c.tile_size)
        0 0 S.w S.h) := by
  have heq1 := place_tile_eq c K S mx my hc hs ht hmx hmy hmxw hmyh
  have hK1 : (place_tile_on_canvas c mx my).canvas_surface
      = some (K.blit S (mx.fdiv c.tile_size * c.tile_size)
          (my.fdiv c.tile_size * c.tile_size) 0 0 S.w S.h) := by rw [heq1]
  have hsel : (place_tile_on_canvas c mx my).selected_tile = some S := by
    rw [heq1]; exact hs
  have hts : (place_tile_on_canvas c mx my).tile_size = c.tile_size := by rw [heq1]
  have heq2 := place_tile_eq (place_tile_on_canvas c mx my)
    (K.blit S (mx.fdiv c.tile_size * c.tile_size) (my.fdiv c.tile_size * c.tile_size)
      0 0 S.w S.h) S mx my
    hK1 hsel (by rw [hts]; exact ht)
    hmx hmy (by simpa using hmxw) (by simpa using hmyh)
  rw [hts] at heq2
  constructor
  · rw [heq2]
  · refine ⟨rfl, rfl, fun x y hx hy => ?_⟩
    simp only [Surface.blit_w, Surface.blit_h] at hx hy
    rw [Surface.blit_px]
    split_ifs with hcond
    · rw [Surface.blit_px, if_pos (by simpa using hcond)]
      refine blendPx_idem _ _ ?_
      refine hbin _ _ ?_ ?_
      · simp only [Surface.blit_w, Surface.blit_h] at hcond
        omega
      · simp only [Surface.blit_w, Surface.blit_h] at hcond
        omega
    · rfl

/-- Counterexample to C4 as stated: placing the semi-transparent
`tileSemi` twice at cell `(0,0)` of the transparent canvas gives alpha 192
at `(0,0)`, while placing it once gives alpha 128. -/
theorem place_twice_not_idem :
    canvasPx (place_tile_on_canvas cPlace 0 0) 0 0 = ⟨255, 0, 0, 128⟩ ∧
    canvasPx (place_tile_on_canvas (place_tile_on_canvas cPlace 0 0) 0 0) 0 0
      = ⟨255, 0, 0, 192⟩ ∧
    canvasPx (place_tile_on_canvas (place_tile_on_canvas cPlace 0 0) 0 0) 0 0
      ≠ canvasPx (place_tile_on_canvas cPlace 0 0) 0 0 := by
  decide

/-- Witness for the amended C4: the fully transparent tile of `cPlace3`
(binary alpha) makes double placement agree with single placement. -/
theorem place_twice_idem_witness :
    ((canvasBlue22.blit tileClearRed 0 0 0 0 tileClearRed.w tileClearRed.h).blit
        tileClearRed 0 0 0 0 tileClearRed.w tileClearRed.h).contentEq
      (canvasBlue22.blit tileClearRed 0 0 0 0 tileClearRed.w tileClearRed.h) :=
  (place_twice_idem cPlace3 canvasBlue22 tileClearRed 0 0 rfl rfl (by decide)
      (by decide) (by decide) (by decide) (by decide)
      (fun u v hu hv => Or.inl rfl)).2

/-- C6 (amended): the `K_x` erase handler is not gated on the drag state:
while `Dragging`, it clears the valid cell under the pointer exactly as it
would in `Idle`; the drag payload (held tile, origin, flag) is unchanged. -/
theorem erase_while_dragging_clears (c : Composer) (K : Surface) (mx my tx ty : Int)
    (_hdrag : c.canvas_dragging = true)
    (hc : c.canvas_surface = some K)
    (hcell : get_canvas_cell_pos (some K) c.tile_size mx my = some (tx, ty)) :
    (step c (.keyX mx my)).canvas_surface
      = some (K.fill RGBA.clear tx ty c.tile_size c.tile_size) ∧
    (step c (.keyX mx my)).canvas_selected_tile = c.canvas_selected_tile ∧
    (step c (.keyX mx my)).canvas_dragging = c.canvas_dragging ∧
    (step c (.keyX mx my)).canvas_selected_orig = c.canvas_selected_orig := by
  have h1 : step c (.keyX mx my) =
      { c with
        canvas_surface := some (K.fill RGBA.clear tx ty c.tile_size c.tile_size) } := by
    simp only [step, hc, hcell]
  rw [h1]
  exact ⟨rfl, rfl, rfl, rfl⟩

/-- Counterexample to C6 as stated: in the Dragging state `cDrag`, the
erase key clears the opaque cell under the pointer — the event is not
ignored while a tile is held. -/
theorem erase_while_dragging_not_ignored :
    cDrag.canvas_dragging = true ∧
    canvasPx cDrag 0 0 = ⟨0, 0, 255, 255⟩ ∧
    canvasPx (step cDrag (.keyX 0 0)) 0 0 = RGBA.clear ∧
    canvasPx (step cDrag (.keyX 0 0)) 0 0 ≠ canvasPx cDrag 0 0 := by
  decide

/-- Witness for the amended C6 at the concrete Dragging state `cDrag`. -/
theorem erase_while_dragging_clears_witness :
    (step cDrag (.keyX 0 0)).canvas_surface
      = some (canvasBlue22.fill RGBA.clear 0 0 cDrag.tile_size cDrag.tile_size) ∧
    (step cDrag (.keyX 0 0)).canvas_selected_tile = cDrag.canvas_selected_tile :=
  ⟨(erase_while_dragging_clears cDrag canvasBlue22 0 0 0 0 rfl rfl (by decide)).1,
   (erase_while_dragging_clears cDrag canvasBlue22 0 0 0 0 rfl rfl (by decide)).2.1⟩

/-- `open_base` on a successful `TileSheet` construction: sets the base
sheet and seeds a fresh transparent canvas with one full blit of the sheet
surface. -/
lemma open_base_ok {c : Composer} {img : Surface} {ts : TileSheet}
    (h : mkTileSheet img c.tile_size = .ok ts) :
    open_base c img =
      { c with
        base_sheet := some ts,
        canvas_surface := some ((Surface.new ts.width ts.height).blit ts.surface
          0 0 0 0 ts.surface.w ts.surface.h) } := by
  unfold open_base
  rw [h]

/-- Unpacking a successful `mkTileSheet`: the tile size was positive and
the sheet record is fully determined. -/
lemma mkTileSheet_ok {img : Surface} {t : Int} {ts : TileSheet}
    (h : mkTileSheet img t = .ok ts) :
    0 < t ∧
    ts = { tile_size := t, surface := img, width := img.w, height := img.h,
           cols := max 1 (img.w / t.toNat), rows := max 1 (img.h / t.toNat),
           tiles := slice_tiles img t (max 1 (img.h / t.toNat))
             (max 1 (img.w / t.toNat)) } := by
  have ht0 : ¬ t = 0 := by
    intro h0
    rw [mkTileSheet, if_pos h0] at h
    exact absurd h (by simp)
  have htneg : ¬ t < 0 := by
    intro h0
    rw [mkTileSheet, if_neg ht0, if_pos h0] at h
    exact absurd h (by simp)
  rw [mkTileSheet, if_neg ht0, if_neg htneg] at h
  rw [Except.ok.injEq] at h
  exact ⟨by omega, h.symm⟩

/-- C5: opening a base image as the canvas and immediately exporting
(snapshotting) before any edit yields pixel content identical to the
original base image, including per-pixel alpha: the canvas-seeding blit
lands on an all-transparent fresh surface, where pygame's blit copies
source RGBA verbatim. -/
theorem open_then_export_identical (c : Composer) (img : Surface)
    (ht : 0 < c.tile_size) :
    save_canvas (open_base c img) = (open_base c img).canvas_surface ∧
    canvasContentEq (open_base c img) img := by
  refine ⟨rfl, ?_⟩
  have hmk : mkTileSheet img c.tile_size = Except.ok
      { tile_size := c.tile_size, surface := img, width := img.w, height := img.h,
        cols := max 1 (img.w / c.tile_size.toNat),
        rows := max 1 (img.h / c.tile_size.toNat),
        tiles := slice_tiles img c.tile_size (max 1 (img.h / c.tile_size.toNat))
          (max 1 (img.w / c.tile_size.toNat)) } := by
    rw [mkTileSheet, if_neg (by omega), if_neg (by omega)]
  rw [open_base_ok hmk]
  refine canvasContentEq_of_eq rfl ?_
  refine ⟨rfl, rfl, fun x y hx hy => ?_⟩
  simp only [Surface.blit_w, Surface.blit_h, Surface.new_w, Surface.new_h] at hx hy
  rw [Surface.blit_px, if_pos (by simp only [Surface.new_w, Surface.new_h]; omega)]
  rw [blendPx_clear_dst _ _ rfl]
  have hxx : ((0 : Int) + ((x : Int) - 0)).toNat = x := by omega
  have hyy : ((0 : Int) + ((y : Int) - 0)).toNat = y := by omega
  rw [hxx, hyy]

/-- Witness for C5 at the concrete 4×4 image `imgEx`. -/
theorem open_then_export_identical_witness :
    save_canvas (open_base cAB imgEx) = (open_base cAB imgEx).canvas_surface ∧
    canvasContentEq (open_base cAB imgEx) imgEx :=
  open_then_export_identical cAB imgEx (by decide)

/-- Normal form of `_slice_tiles`: the row-major double loop equals a map
over linear indices `i`, the tile at `i` being cut at column `i % cols`,
row `i / cols`. -/
lemma slice_tiles_eq (s : Surface) (t : Int) (rows cols : Nat) :
    slice_tiles s t rows cols = (List.range (rows * cols)).map fun i =>
      Surface.blit (Surface.new t.toNat t.toNat) s 0 0
        (((i % cols : Nat) : Int) * t) (((i / cols : Nat) : Int) * t)
        t.toNat t.toNat := by
  induction rows with
  | zero => simp [slice_tiles]
  | succ n ih =>
      rw [slice_tiles, List.range_succ, List.flatMap_append]
      rw [show (List.range n).flatMap _ = slice_tiles s t n cols from rfl, ih]
      rw [Nat.succ_mul, List.range_add, List.map_append]
      congr 1
      rw [List.flatMap_singleton, List.map_map]
      refine List.map_congr_left fun x hx => ?_
      rw [List.mem_range] at hx
      have hmod : (n * cols + x) % cols = x := by
        rw [Nat.mul_comm, Nat.mul_add_mod, Nat.mod_eq_of_lt hx]
      have hdiv : (n * cols + x) / cols = n := by
        rw [Nat.mul_comm, Nat.mul_add_div (by omega), Nat.div_eq_of_lt hx]
        omega
      simp only [Function.comp, hmod, hdiv]

/-- Length of the sliced tile list. -/
lemma slice_tiles_length (s : Surface) (t : Int) (rows cols : Nat) :
    (slice_tiles s t rows cols).length = rows * cols := by
  rw [slice_tiles_eq]
  simp

/-- Pixel content of one cut tile: the fresh tile surface is transparent,
so the area blit copies the source pixels of the
`Rect(cN*t, r*t, t, t)` rect verbatim, and pixels of the rect outside the
source image stay transparent (pygame clips the area to the source). -/
lemma slice_tile_px (s : Surface) (n cN r u v : Nat) (hu : u < n) (hv : v < n) :
    (Surface.blit (Surface.new n n) s 0 0 ((cN : Int) * (n : Int))
        ((r : Int) * (n : Int)) n n).px u v
      = if cN * n + u < s.w ∧ r * n + v < s.h
        then s.px (cN * n + u) (r * n + v)
        else RGBA.clear := by
  rw [Surface.blit_px]
  have hcast1 : (cN : Int) * (n : Int) + ((u : Int) - 0) = ((cN * n + u : Nat) : Int) := by
    push_cast
    ring
  have hcast2 : (r : Int) * (n : Int) + ((v : Int) - 0) = ((r * n + v : Nat) : Int) := by
    push_cast
    ring
  rw [hcast1, hcast2]
  by_cases hcase : cN * n + u < s.w ∧ r * n + v < s.h
  · rw [if_pos (by simp only [Surface.new_w, Surface.new_h]; omega),
      if_pos hcase, blendPx_clear_dst _ _ rfl, Int.toNat_natCast, Int.toNat_natCast]
  · rw [if_neg (by simp only [Surface.new_w, Surface.new_h]; omega), if_neg hcase]
    rfl

/-- C7: for every source image and every tile_size `t > 0` (every
successful construction), slicing produces exactly
`max(1,⌊H/t⌋) * max(1,⌊W/t⌋)` tiles; the tile at row-major index
`r*cols + cN` is cropped from origin `(cN*t, r*t)`, with pixels beyond the
source bounds transparent. -/
theorem tilesheet_slice_rowmajor (img : Surface) (t : Int) (ts : TileSheet)
    (h : mkTileSheet img t = .ok ts) :
    ts.cols = max 1 (img.w / t.toNat) ∧
    ts.rows = max 1 (img.h / t.toNat) ∧
    ts.tiles.length = max 1 (img.h / t.toNat) * max 1 (img.w / t.toNat) ∧
    (∀ r cN : Nat, r < ts.rows → cN < ts.cols → ∀ u v : Nat,
      u < t.toNat → v < t.toNat →
      (ts.tiles.getD (r * ts.cols + cN) (Surface.new 0 0)).px u v =
        if cN * t.toNat + u < img.w ∧ r * t.toNat + v < img.h
        then img.px (cN * t.toNat + u) (r * t.toNat + v)
        else RGBA.clear) := by
  obtain ⟨ht, hts⟩ := mkTileSheet_ok h
  subst hts
  refine ⟨rfl, rfl, slice_tiles_length img t _ _, fun r cN hr hcN u v hu hv => ?_⟩
  simp only at hr hcN
  have hcols : 0 < max 1 (img.w / t.toNat) := by omega
  have hidx : r * max 1 (img.w / t.toNat) + cN
      < (slice_tiles img t (max 1 (img.h / t.toNat)) (max 1 (img.w / t.toNat))).length := by
    rw [slice_tiles_length]
    calc r * max 1 (img.w / t.toNat) + cN
        < r * max 1 (img.w / t.toNat) + max 1 (img.w / t.toNat) := by omega
      _ = (r + 1) * max 1 (img.w / t.toNat) := by ring
      _ ≤ max 1 (img.h / t.toNat) * max 1 (img.w / t.toNat) :=
          Nat.mul_le_mul_right _ (by omega)
  have hgetd : ∀ (l : List Surface) (i : Nat) (hi : i < l.length),
      l.getD i (Surface.new 0 0) = l.get ⟨i, hi⟩ := by
    intro l i hi
    simp [List.getD_eq_getElem?_getD, List.getElem?_eq_getElem hi]
  rw [hgetd _ _ hidx]
  have hmap := slice_tiles_eq img t (max 1 (img.h / t.toNat)) (max 1 (img.w / t.toNat))
  have hget : (slice_tiles img t (max 1 (img.h / t.toNat))
        (max 1 (img.w / t.toNat))).get ⟨r * max 1 (img.w / t.toNat) + cN, hidx⟩
      = Surface.blit (Surface.new t.toNat t.toNat) img 0 0
          ((((r * max 1 (img.w / t.toNat) + cN) % max 1 (img.w / t.toNat) : Nat) : Int) * t)
          ((((r * max 1 (img.w / t.toNat) + cN) / max 1 (img.w / t.toNat) : Nat) : Int) * t)
          t.toNat t.toNat := by
    simp only [hmap, List.get_eq_getElem, List.getElem_map, List.getElem_range]
  rw [hget]
  have hmod : (r * max 1 (img.w / t.toNat) + cN) % max 1 (img.w / t.toNat) = cN := by
    rw [Nat.mul_comm, Nat.mul_add_mod, Nat.mod_eq_of_lt hcN]
  have hdiv : (r * max 1 (img.w / t.toNat) + cN) / max 1 (img.w / t.toNat) = r := by
    rw [Nat.mul_comm, Nat.mul_add_div hcols, Nat.div_eq_of_lt hcN]
    omega
  rw [hmod, hdiv]
  have hn : ((t.toNat : Nat) : Int) = t := by omega
  rw [← hn]
  exact slice_tile_px img t.toNat cN r u v hu hv

/-- Witness for C7 at the concrete 4×4 image and tile size 2: four tiles,
and tile index 3 (row 1, column 1) at pixel (1,1) shows image pixel
(3,3). -/
theorem tilesheet_slice_rowmajor_witness :
    tsEx.tiles.length = max 1 (imgEx.h / (2 : Int).toNat) * max 1 (imgEx.w / (2 : Int).toNat) ∧
    (tsEx.tiles.getD (1 * tsEx.cols + 1) (Surface.new 0 0)).px 1 1
      = if 1 * (2 : Int).toNat + 1 < imgEx.w ∧ 1 * (2 : Int).toNat + 1 < imgEx.h
        then imgEx.px (1 * (2 : Int).toNat + 1) (1 * (2 : Int).toNat + 1)
        else RGBA.clear := by
  have h := tilesheet_slice_rowmajor imgEx 2 tsEx rfl
  exact ⟨h.2.2.1, h.2.2.2 1 1 (by decide) (by decide) 1 1 (by decide) (by decide)⟩

/-- C8: for every image and tile_size ≤ 0, TileSheet construction fails
(ZeroDivisionError at `width // 0` for `t = 0`; pygame's invalid-resolution
error at `Surface((t, t))` for `t < 0`), the exception is reported to the
caller, and the `try/except` wrappers of `open_base` and
`add_palette_sheet` leave the composer state entirely unchanged.  (For
`add_palette_sheet` the trailing `palette_index` re-clamp runs even on
failure; it is the identity under the editor's maintained invariant
`palette_index < len(palette_sheets)` — or no sheets at all — which is the
`hpi` hypothesis.) -/
theorem slice_nonpositive_fails (img : Surface) (c : Composer) (t : Int)
    (hts : c.tile_size = t) (h : t ≤ 0)
    (hpi : c.palette_sheets = [] ∨ c.palette_index < c.palette_sheets.length) :
    mkTileSheet img t = Except.error
      (if t = 0 then SliceError.zeroDivision else SliceError.invalidResolution) ∧
    open_base c img = c ∧ add_palette_sheet c img = c := by
  subst hts
  have herr : mkTileSheet img c.tile_size = Except.error
      (if c.tile_size = 0 then SliceError.zeroDivision
       else SliceError.invalidResolution) := by
    by_cases h0 : c.tile_size = 0
    · rw [mkTileSheet, if_pos h0, if_pos h0]
    · have hneg : c.tile_size < 0 := by omega
      rw [mkTileSheet, if_neg h0, if_pos hneg, if_neg h0]
  refine ⟨herr, ?_, ?_⟩
  · unfold open_base
    rw [herr]
  · simp only [add_palette_sheet, herr]
    rcases hpi with hpi | hpi
    · have hz : ¬ 0 < c.palette_sheets.length := by simp [hpi]
      rw [if_neg hz]
    · have hpos : 0 < c.palette_sheets.length := by omega
      rw [if_pos hpos]
      have hmin : min c.palette_index (c.palette_sheets.length - 1)
          = c.palette_index := by omega
      rw [hmin]

/-- Witness for C8 at tile size 0 and a composer with that tile size. -/
theorem slice_nonpositive_fails_witness :
    mkTileSheet imgEx 0 = Except.error
      (if (0 : Int) = 0 then SliceError.zeroDivision else SliceError.invalidResolution) ∧
    open_base (mkComposer 0 none [] none) imgEx = mkComposer 0 none [] none ∧
    add_palette_sheet (mkComposer 0 none [] none) imgEx = mkComposer 0 none [] none :=
  slice_nonpositive_fails imgEx (mkComposer 0 none [] none) 0 rfl (by decide)
    (Or.inl rfl)

/-- C9: for a palette-grid position (nonnegative offsets into the palette
area), `select_tile_from_palette_coords` computes
`idx = (row + scroll) * PALETTE_COLS + col` over the flattened tile
sequence; when `idx` is out of range it returns `false` and leaves the
whole composer (and so the previous selection) unchanged; when in range it
sets the selection to that entry and returns `true`. -/
theorem select_at_range (c : Composer) (s : Surface) (mx my : Int)
    (hc : c.canvas_surface = some s)
    (hpx : 0 ≤ mx - (s.w : Int) - 10) (hpy : 0 ≤ my - 10) :
    ((paletteTiles c.palette_sheets).length ≤
        ((my - 10).toNat / PALETTE_THUMB + c.palette_scroll) * PALETTE_COLS +
          (mx - (s.w : Int) - 10).toNat / PALETTE_THUMB →
      select_tile_from_palette_coords c mx my = (c, false)) ∧
    (∀ hlt : ((my - 10).toNat / PALETTE_THUMB + c.palette_scroll) * PALETTE_COLS +
          (mx - (s.w : Int) - 10).toNat / PALETTE_THUMB <
        (paletteTiles c.palette_sheets).length,
      select_tile_from_palette_coords c mx my =
        ({ c with selected_tile := some ((paletteTiles c.palette_sheets).get
            ⟨((my - 10).toNat / PALETTE_THUMB + c.palette_scroll) * PALETTE_COLS +
                (mx - (s.w : Int) - 10).toNat / PALETTE_THUMB, hlt⟩) }, true)) := by
  constructor
  · intro hge
    simp only [select_tile_from_palette_coords, hc]
    rw [if_neg (by omega), dif_neg (by omega)]
  · intro hlt
    simp only [select_tile_from_palette_coords, hc]
    rw [if_neg (by omega), dif_pos hlt]

/-- Witness for C9 on `cPal` (four palette tiles): position `(12, 170)`
computes index 40 (out of range, no change, false); position `(12, 10)`
computes index 0 (in range, returns true). -/
theorem select_at_range_witness :
    select_tile_from_palette_coords cPal 12 170 = (cPal, false) ∧
    (select_tile_from_palette_coords cPal 12 10).2 = true := by
  constructor
  · exact (select_at_range cPal canvasClear22 12 170 rfl (by decide) (by decide)).1
      (by decide)
  · rw [(select_at_range cPal canvasClear22 12 10 rfl (by decide) (by decide)).2
      (by decide)]

/-- C10: every successfully constructed `TileSheet` has at least one tile
(`rows` and `cols` are clamped to a minimum of 1), so the number-key
sheet-switch handler's `tiles[0]` access never raises: `handle_number_key`
always returns a state rather than the `IndexError` marker. -/
theorem sheet_tiles_nonempty (c : Composer) (idx : Nat)
    (hall : ∀ ts ∈ c.palette_sheets, ∃ img t, mkTileSheet img t = Except.ok ts) :
    (∀ ts ∈ c.palette_sheets, 0 < ts.tiles.length) ∧
    (handle_number_key c idx).isSome = true := by
  have hlen : ∀ ts ∈ c.palette_sheets, 0 < ts.tiles.length := by
    intro ts hts
    obtain ⟨img, t, hmk⟩ := hall ts hts
    obtain ⟨ht, hrec⟩ := mkTileSheet_ok hmk
    subst hrec
    simp only [slice_tiles_length]
    have h1 : 1 ≤ max 1 (img.h / t.toNat) := le_max_left _ _
    have h2 : 1 ≤ max 1 (img.w / t.toNat) := le_max_left _ _
    exact Nat.mul_pos h1 h2
  refine ⟨hlen, ?_⟩
  by_cases hidx : idx < c.palette_sheets.length
  · have hmem : c.palette_sheets.get ⟨idx, hidx⟩ ∈ c.palette_sheets :=
      List.get_mem c.palette_sheets idx hidx
    have hpos := hlen _ hmem
    unfold handle_number_key
    rw [dif_pos hidx]
    cases hcase : (c.palette_sheets.get ⟨idx, hidx⟩).tiles with
    | nil => rw [hcase] at hpos; exact absurd hpos (by simp)
    | cons a l => rfl
  · unfold handle_number_key
    rw [dif_neg hidx]
    rfl

/-- Witness for C10 on `cPal`, whose single palette sheet is the
constructed `tsEx`. -/
theorem sheet_tiles_nonempty_witness :
    0 < tsEx.tiles.length ∧ (handle_number_key cPal 0).isSome = true := by
  have h := sheet_tiles_nonempty cPal 0 (fun ts hts => by
    have hts2 : ts = tsEx := by simpa [cPal, mkComposer] using hts
    subst hts2
    exact ⟨imgEx, 2, rfl⟩)
  exact ⟨h.1 tsEx (List.mem_singleton_self tsEx), h.2⟩
